import Mathlib

/-!
Verification of the DHAVinci frame carver (src/DHAVinci.py) against its
natural-language specification.

The Python source is shallowly embedded: the byte region is a `List Nat`
(one entry per byte), the packed-date codec and the frame-header parser are
pure functions, and the `main` scan loop is a fuel-driven state machine
whose observable effects (segments flushed through the export decision,
container files written, CSV rows emitted) are collected in a `Trace`.
-/

set_option autoImplicit false
set_option maxRecDepth 20000

namespace DHAVinci

/-! ### Calendar date-times (model of Python `datetime.datetime`) -/

/-- A calendar date-time, standing for a Python `datetime.datetime` value. -/
structure DateTime where
  year : Nat
  month : Nat
  day : Nat
  hour : Nat
  minute : Nat
  second : Nat
deriving Repr, DecidableEq

/-- Gregorian leap-year test, as used by `datetime` to validate the day. -/
def isLeap (y : Nat) : Bool :=
  (y % 4 == 0 && y % 100 != 0) || y % 400 == 0

/-- Number of days of a month, as `datetime` uses to validate a date. -/
def daysInMonth (y m : Nat) : Nat :=
  if m == 2 then (if isLeap y then 29 else 28)
  else if m == 4 || m == 6 || m == 9 || m == 11 then 30
  else 31

/-- The validity check performed by the `datetime.datetime` constructor:
it raises `ValueError` exactly when this returns `false`. -/
def validDateTime (d : DateTime) : Bool :=
  decide (1 ≤ d.year) && decide (d.year ≤ 9999) &&
  decide (1 ≤ d.month) && decide (d.month ≤ 12) &&
  decide (1 ≤ d.day) && decide (d.day ≤ daysInMonth d.year d.month) &&
  decide (d.hour ≤ 23) && decide (d.minute ≤ 59) && decide (d.second ≤ 59)

/-- Lexicographic key of a date-time; for field values within their calendar
ranges this agrees with Python's field-lexicographic `datetime` comparison. -/
def dtKey (d : DateTime) : Nat :=
  ((((d.year * 16 + d.month) * 32 + d.day) * 32 + d.hour) * 64 + d.minute) * 64 + d.second

/-- Model of `datetime` comparison `a < b`. -/
def dtLT (a b : DateTime) : Bool :=
  decide (dtKey a < dtKey b)

/-! ### TimestampCodec: `date_to_timestamp` (src/DHAVinci.py lines 83-90) -/

/-- `date & 0x3F` — seconds field of the packed date. -/
def decodeSec (date : Nat) : Nat := date % 64

/-- `(date >> 6) & 0x3F` — minutes field. -/
def decodeMin (date : Nat) : Nat := date / 64 % 64

/-- `(date >> 12) & 0x1F` — hours field. -/
def decodeHour (date : Nat) : Nat := date / 4096 % 32

/-- `(date >> 17) & 0x1F` — day field. -/
def decodeDay (date : Nat) : Nat := date / 131072 % 32

/-- `(date >> 22) & 0x0F` — month field. -/
def decodeMonth (date : Nat) : Nat := date / 4194304 % 16

/-- `((date >> 26) & 0x3F) + 2000` — year field. -/
def decodeYear (date : Nat) : Nat := date / 67108864 % 64 + 2000

/-- Embedding of `date_to_timestamp`: unpack the bit fields and build a
`datetime`; the constructor raises `ValueError` (here: `none`) when any
field is outside its calendar range. -/
def date_to_timestamp (date : Nat) : Option DateTime :=
  if validDateTime ⟨decodeYear date, decodeMonth date, decodeDay date,
                    decodeHour date, decodeMin date, decodeSec date⟩ then
    some ⟨decodeYear date, decodeMonth date, decodeDay date,
          decodeHour date, decodeMin date, decodeSec date⟩
  else none

/-- Modelled from the spec: the encoder direction of the packed bitfield
(seconds in bits 0-5, minutes in 6-11, hours in 12-16, day in 17-21,
month in 22-25, year minus 2000 in 26-31).  The source only decodes, so the
encoder is taken from the spec's PackedDate description. -/
def packDate (d : DateTime) : Nat :=
  d.second + 64 * (d.minute + 64 * (d.hour + 32 * (d.day + 32 * (d.month + 16 * (d.year - 2000)))))

/-! ### Time-window filter: `timestamp_ok` (src/DHAVinci.py lines 111-116) -/

/-- `starttime and timestamp < starttime` (a `None` bound disables the test). -/
def beforeStart (t : DateTime) : Option DateTime → Bool
  | some s => dtLT t s
  | none => false

/-- `stoptime and timestamp > stoptime` (a `None` bound disables the test). -/
def afterStop (t : DateTime) : Option DateTime → Bool
  | some s => dtLT s t
  | none => false

/-- Embedding of `timestamp_ok`. -/
def timestamp_ok (t : DateTime) (starttime stoptime : Option DateTime) : Bool :=
  if beforeStart t starttime then false
  else if afterStop t stoptime then false
  else true

/-! ### Bytes and little-endian integers -/

/-- `int.from_bytes(bs, byteorder=little)`: value of a byte string read
little-endian (the empty string decodes to 0, as in Python). -/
def leBytes : List Nat → Nat
  | [] => 0
  | b :: bs => b + 256 * leBytes bs

/-- `mm.read(n)` issued at position `pos` of the region: returns the bytes
`region[pos : pos+n]`, clipped at the end of the region exactly as
`mmap.read` is. -/
def readBytes (region : List Nat) (pos n : Nat) : List Nat :=
  (region.drop pos).take n

/-! ### FrameHeaderParser: `DHAVContext.read_data` (src/DHAVinci.py lines 68-81) -/

/-- A parsed frame (the fields of `DHAVContext` that `read_data` fills in).
`header_offset` records the region offset the frame was parsed at (the
`header_offset` variable of `main`, which the Python code keeps alongside
the context object). `type` and `subtype` stay raw byte strings, as in the
source. `timestamp` is the 2-byte auxiliary counter (the spec's
`extra_timestamp`). -/
structure Frame where
  header_offset : Nat
  signature : List Nat
  type : List Nat
  subtype : List Nat
  channel : Nat
  frame_subnumber : Nat
  frame_number : Nat
  frame_length : Nat
  date : Nat
  timestamp : Nat
  data : List Nat
deriving Repr, DecidableEq

/-- Embedding of `DHAVContext.read_data`, reading at `h`: the nine
sequential `f.read` calls (each advancing the position by the number of
bytes actually obtained), then `f.seek(-22, SEEK_CUR)` and the raw read of
`frame_length` bytes into `data`.  The seek-back target is clamped at 0 by
Nat subtraction; it can fall below `h` only when the region ends within 22
bytes of the signature, and is negative (a `ValueError` in CPython) only
for regions shorter than 22 bytes, which no claim exercises. -/
def read_data (region : List Nat) (h : Nat) : Frame :=
  let sig := readBytes region h 4
  let p1 := h + sig.length
  let ty := readBytes region p1 1
  let p2 := p1 + ty.length
  let st := readBytes region p2 1
  let p3 := p2 + st.length
  let ch := readBytes region p3 1
  let p4 := p3 + ch.length
  let fsn := readBytes region p4 1
  let p5 := p4 + fsn.length
  let fn := readBytes region p5 4
  let p6 := p5 + fn.length
  let fl := readBytes region p6 4
  let p7 := p6 + fl.length
  let dt := readBytes region p7 4
  let p8 := p7 + dt.length
  let ts := readBytes region p8 2
  let p9 := p8 + ts.length
  { header_offset := h
    signature := sig
    type := ty
    subtype := st
    channel := leBytes ch
    frame_subnumber := leBytes fsn
    frame_number := leBytes fn
    frame_length := leBytes fl
    date := leBytes dt
    timestamp := leBytes ts
    data := readBytes region (p9 - 22) (leBytes fl) }

/-! ### Exporter: `write_dav` (src/DHAVinci.py lines 104-109) -/

/-- The bytes `write_dav` writes to the output container file: the
concatenation of each frame's raw `data` in segment order.  (The output
filename, derived from channel and first/last dates, is not modelled.) -/
def write_dav : List Frame → List Nat
  | [] => []
  | f :: fs => f.data ++ write_dav fs

/-- The source region span `[off, off+len)` referred to by the spec's
lossless-carving property. -/
def span (region : List Nat) (off len : Nat) : List Nat :=
  (region.drop off).take len

/-- Concatenation of the source spans of a segment's frames, in order. -/
def segSpans (region : List Nat) : List Frame → List Nat
  | [] => []
  | f :: fs => span region f.header_offset f.frame_length ++ segSpans region fs

/-! ### SignatureScanner: `mm.find(b'DHAV', offset)` -/

/-- The 4-byte magic value `b'DHAV'`. -/
def sigBytes : List Nat := [68, 72, 65, 86]

/-- The signature occurs at offset `i` of the region. -/
def matchesAt (region : List Nat) (i : Nat) : Bool :=
  decide ((region.drop i).take 4 = sigBytes)

/-- Linear scan for the signature starting at index `i`, examining at most
`fuel` candidate positions. -/
def findAux (region : List Nat) : Nat → Nat → Option Nat
  | 0, _ => none
  | fuel + 1, i => if matchesAt region i then some i else findAux region fuel (i + 1)

/-- Embedding of `mm.find(b'DHAV', offset)`: the least offset `≥ offset`
where the signature occurs, or `none` (Python: -1) when there is none. -/
def mmFind (region : List Nat) (offset : Nat) : Option Nat :=
  findAux region (region.length + 1 - offset) offset

/-! ### The scan loop of `main` (src/DHAVinci.py lines 161-209) -/

/-- The configuration `main` receives from the CLI layer.  `startoffset` is
the (already granularity-rounded) value added to `header_offset` when an
offset is reported externally. -/
structure Config where
  starttime : Option DateTime
  stoptime : Option DateTime
  dryrun : Bool
  csv : Bool
  startoffset : Nat
deriving Repr, DecidableEq

/-- The mutable loop state of `main`: the search cursor `offset`, the
buffered segment `frames`, and the `timestamp` local variable (`none` while
it is still unbound). -/
structure ScanState where
  offset : Nat
  frames : List Frame
  timestamp : Option DateTime
deriving Repr, DecidableEq

/-- One CSV row as written at src/DHAVinci.py lines 204-205: the decoded
timestamp, the reported offset `header_offset + startoffset`, and the frame
whose remaining fields fill the row. -/
structure Row where
  rts : DateTime
  roffset : Nat
  rframe : Frame
deriving Repr, DecidableEq

/-- The observable output of a run: every segment that reached the export
decision together with the timestamp the decision used (`flushes`), the
segments actually written by `write_dav` (`exported`), and the rows of
found_all.csv and found_selection.csv. -/
structure Trace where
  flushes : List (List Frame × DateTime)
  exported : List (List Frame)
  allRows : List Row
  selRows : List Row
deriving Repr, DecidableEq

/-- Result of running the scan loop with a given amount of fuel:
`done` with the final trace, `crash` for an uncaught Python exception, or
`fuelOut` when the given iteration budget was exhausted. -/
inductive RunResult where
  | done : Trace → RunResult
  | crash : RunResult
  | fuelOut : RunResult
deriving Repr, DecidableEq

/-- The export decision applied to a finished segment `seg` using timestamp
`t`: `if timestamp_ok(t, starttime, stoptime): if not dryrun:
write_dav(...)`.  The segment and the timestamp consulted are recorded in
`flushes`; the segment is appended to `exported` iff `write_dav` runs. -/
def flushSegment (cfg : Config) (seg : List Frame) (t : DateTime) (tr : Trace) : Trace :=
  let tr1 := { tr with flushes := tr.flushes ++ [(seg, t)] }
  if timestamp_ok t cfg.starttime cfg.stoptime then
    if cfg.dryrun then tr1
    else { tr1 with exported := tr1.exported ++ [seg] }
  else tr1

/-- Lines 185-191: on a gap (`header_offset > offset and frames`), decode
the first buffered frame's date into `timestamp`, run the export decision
and clear the segment.  `date_to_timestamp(frames[0].date)` is outside any
try-block, so a failing decode there is an uncaught `ValueError` (`none`). -/
def gapStep (cfg : Config) (s : ScanState) (tr : Trace) (h : Nat) :
    Option (ScanState × Trace) :=
  match s.frames with
  | [] => some (s, tr)
  | f0 :: rest =>
    if s.offset < h then
      match date_to_timestamp f0.date with
      | none => none
      | some t =>
        some ({ s with frames := [], timestamp := some t },
              flushSegment cfg (f0 :: rest) t tr)
    else some (s, tr)

/-- Lines 195-207: try to decode the parsed frame's date.  On `ValueError`
only a debug trace is recorded; otherwise the CSV rows are written (the
selection row first, when a time window is configured and the frame's own
timestamp passes the filter) and the frame is appended to the segment. -/
def frameStep (cfg : Config) (h : Nat) (s : ScanState) (tr : Trace) (dhav : Frame) :
    ScanState × Trace :=
  match date_to_timestamp dhav.date with
  | none => (s, tr)
  | some t =>
    let row : Row := { rts := t, roffset := h + cfg.startoffset, rframe := dhav }
    let tr1 :=
      if cfg.csv then
        let tr2 :=
          if cfg.starttime.isSome || cfg.stoptime.isSome then
            if timestamp_ok t cfg.starttime cfg.stoptime then
              { tr with selRows := tr.selRows ++ [row] }
            else tr
          else tr
        { tr2 with allRows := tr2.allRows ++ [row] }
      else tr
    ({ s with frames := s.frames ++ [dhav], timestamp := some t }, tr1)

/-- One loop iteration after `mm.find` returned `h`: gap handling, parsing
the frame at `h`, the date/CSV/append step, and the cursor advance
`offset = header_offset + dhav.frame_length` (line 209). -/
def scanIter (cfg : Config) (region : List Nat) (s : ScanState) (tr : Trace) (h : Nat) :
    Option (ScanState × Trace) :=
  match gapStep cfg s tr h with
  | none => none
  | some (s1, tr1) =>
    let dhav := read_data region h
    let st2 := frameStep cfg h s1 tr1 dhav
    some ({ st2.1 with offset := h + dhav.frame_length }, st2.2)

/-- Lines 167-172: scanner exhaustion.  `if frames and timestamp_ok(timestamp,
...)` uses the current value of the `timestamp` variable; when `frames` is
non-empty but `timestamp` was never assigned the name lookup raises. -/
def finalFlush (cfg : Config) (s : ScanState) (tr : Trace) : RunResult :=
  match s.frames with
  | [] => RunResult.done tr
  | _ :: _ =>
    match s.timestamp with
    | none => RunResult.crash
    | some t => RunResult.done (flushSegment cfg s.frames t tr)

/-- The `while True` loop of `main`, driven by fuel. -/
def scanLoop (cfg : Config) (region : List Nat) : Nat → ScanState → Trace → RunResult
  | 0, _, _ => RunResult.fuelOut
  | fuel + 1, s, tr =>
    match mmFind region s.offset with
    | none => finalFlush cfg s tr
    | some h =>
      match scanIter cfg region s tr h with
      | none => RunResult.crash
      | some q => scanLoop cfg region fuel q.1 q.2

/-- Initial loop state: `offset = 0`, `frames = []`, `timestamp` unbound. -/
def initState : ScanState := { offset := 0, frames := [], timestamp := none }

/-- The empty trace at loop entry. -/
def emptyTrace : Trace := { flushes := [], exported := [], allRows := [], selRows := [] }

/-- Run the whole scan over a region. -/
def runScan (cfg : Config) (region : List Nat) (fuel : Nat) : RunResult :=
  scanLoop cfg region fuel initState emptyTrace

/-- The header offsets of each flushed segment of a completed run. -/
def flushOffsets : RunResult → Option (List (List Nat))
  | RunResult.done tr => some (tr.flushes.map (fun p => p.1.map Frame.header_offset))
  | _ => none

/-- The exported segments of a completed run. -/
def exportedOf : RunResult → Option (List (List Frame))
  | RunResult.done tr => some tr.exported
  | _ => none

/-! ### Mapping setup of `main` (src/DHAVinci.py lines 153-160 and 175) -/

/-- The byte region the scan actually runs over, as `main` constructs it:
after rounding `skip` down to the mapping `granularity`, the call
`mmap.mmap(f.fileno(), startoffset, access=ACCESS_READ)` passes
`startoffset` as the second positional parameter of `mmap.mmap`, which is
the LENGTH of the mapping (the file offset parameter is a keyword argument
that defaults to 0).  A length of 0 maps the whole file; otherwise the
mapping covers the first `startoffset` bytes of the file. -/
def scannedRegion (file : List Nat) (granularity skip : Nat) : List Nat :=
  let startoffset := skip - skip % granularity
  if startoffset == 0 then file else file.take startoffset

/-- The externally reported position of a find, `header_offset + startoffset`
(line 175 for the progress log; lines 204-205 for the CSV offset column). -/
def reportedOffset (granularity skip header_offset : Nat) : Nat :=
  header_offset + (skip - skip % granularity)

/-! ### CSV file handles of `main` (src/DHAVinci.py lines 130-137, 211-215) -/

/-- Whether `selectionoutputfile` is ever assigned: only when `--csv` is on
and at least one of the two time bounds is configured (line 135). -/
def selectionFileCreated (csv : Bool) (starttime stoptime : Option DateTime) : Bool :=
  csv && (starttime.isSome || stoptime.isSome)

/-- Outcome of the cleanup code after the scan. -/
inductive CleanupResult where
  | ok : CleanupResult
  | nameError : CleanupResult
deriving Repr, DecidableEq

/-- Lines 211-215: `if args.get(csv): if selectionoutputfile: ...`.
Evaluating the name `selectionoutputfile` when it was never assigned raises
`UnboundLocalError`; when it is bound it refers to an open file object,
which is truthy, and both files are closed. -/
def cleanup (csv selectionBound : Bool) : CleanupResult :=
  if csv then
    if selectionBound then CleanupResult.ok
    else CleanupResult.nameError
  else CleanupResult.ok

/-! ### Concrete byte regions used as test inputs -/

/-- 4-byte little-endian encoding of a value below 2^32. -/
def le4 (n : Nat) : List Nat :=
  [n % 256, n / 256 % 256, n / 65536 % 256, n / 16777216 % 256]

/-- 2-byte little-endian encoding of a value below 2^16. -/
def le2 (n : Nat) : List Nat :=
  [n % 256, n / 256 % 256]

/-- A full 22-byte DHAV frame header with the given channel, frame number,
frame length, packed date and auxiliary timestamp (type and subtype 0). -/
def mkHeader (channel fnum flen date ts : Nat) : List Nat :=
  sigBytes ++ [0, 0, channel, 0] ++ le4 fnum ++ le4 flen ++ le4 date ++ le2 ts

/-- A whole frame of `flen` bytes: the header followed by zero padding. -/
def frameBlock (flen date : Nat) : List Nat :=
  mkHeader 1 0 flen date 0 ++ List.replicate (flen - 22) 0

/-- Packed date for 2024-08-02 15:42:00 (a calendar-valid date). -/
def dGood : Nat := 1644493440

/-- Packed date for 2024-08-02 10:00:00. -/
def dTen : Nat := 1644470272

/-- Packed date for 2024-08-02 12:00:00. -/
def dTwelve : Nat := 1644478464

/-- A configuration with no time window, no dry run, no CSV, no skip. -/
def cfg0 : Config :=
  { starttime := none, stoptime := none, dryrun := false, csv := false, startoffset := 0 }

/-- The contiguity-grouping input of the spec: frames at offsets 0, 100 and
200, each 100 bytes long, then a gap of zeros and a frame at offset 500. -/
def region1 : List Nat :=
  frameBlock 100 dGood ++ frameBlock 100 dGood ++ frameBlock 100 dGood ++
    List.replicate 200 0 ++ frameBlock 100 dGood

/-- A 22-byte frame at offset 0, a gap of zeros, and a frame at offset 50
whose packed date 0 is calendar-invalid. -/
def region1c : List Nat :=
  frameBlock 22 dGood ++ List.replicate 28 0 ++ frameBlock 22 0

/-- Two byte-adjacent 22-byte frames: the first dated 10:00, the second
12:00 of the same day. -/
def region4 : List Nat :=
  frameBlock 22 dTen ++ frameBlock 22 dTwelve

/-- Configuration whose start bound 2024-08-02 11:00:00 lies strictly
between the two frame dates of region4. -/
def cfg4 : Config :=
  { starttime := some { year := 2024, month := 8, day := 2, hour := 11, minute := 0, second := 0 },
    stoptime := none, dryrun := false, csv := false, startoffset := 0 }

/-- A 22-byte region whose signature sits at offset 2, so that the declared
22-byte header runs two bytes past the end of the region: the nine header
reads stop at the region end and the seek-back lands at offset 0 instead
of 2.  The declared frame length is 22 and the date is valid. -/
def region5 : List Nat :=
  [0, 0] ++ sigBytes ++ [0, 0, 1, 0] ++ le4 0 ++ le4 22 ++ le4 dGood

/-- Three consecutive 22-byte frames at offsets 0, 22 and 44; the middle
one carries the calendar-invalid packed date 0. -/
def region7 : List Nat :=
  frameBlock 22 dGood ++ frameBlock 22 0 ++ frameBlock 22 dGood

/-- A full header at offset 0 declaring `frame_length` 100 inside a region
of only 30 bytes. -/
def region8 : List Nat :=
  mkHeader 1 0 100 dGood 0 ++ List.replicate 8 0

/-- A header at offset 0 declaring `frame_length` 0. -/
def regionZ : List Nat :=
  mkHeader 1 0 0 dGood 0

/-- A header whose packed date 0 is calendar-invalid, declared length 22. -/
def regionB : List Nat :=
  frameBlock 22 0

/-- An 8192-byte file whose only DHAV signature sits at offset 0 (a
22-byte frame followed by zeros). -/
def fileC6 : List Nat :=
  mkHeader 1 0 22 dGood 0 ++ List.replicate 8170 0

/-- The cfg0 configuration with CSV output enabled. -/
def cfgCsv : Config :=
  { starttime := none, stoptime := none, dryrun := false, csv := true, startoffset := 0 }

/-- A valid-dated 22-byte frame alone in its region. -/
def regionA : List Nat :=
  frameBlock 22 dGood

/-- Loop state of region1c after its first frame was appended: cursor 22,
one buffered frame, `timestamp` holding its decoded date. -/
def stateC1 : ScanState :=
  { offset := 22, frames := [read_data region1c 0],
    timestamp := date_to_timestamp (read_data region1c 0).date }

/-- Loop state of region4 after both frames were appended: cursor 44, two
buffered frames, `timestamp` holding the SECOND frame's decoded date. -/
def stateC4 : ScanState :=
  { offset := 44, frames := [read_data region4 0, read_data region4 22],
    timestamp := date_to_timestamp (read_data region4 22).date }

/-- The trace produced by scanning regionA: its one frame is flushed at
exhaustion with its own decoded date and exported. -/
def traceA : Trace :=
  { flushes := [([read_data regionA 0],
      { year := 2024, month := 8, day := 2, hour := 15, minute := 42, second := 0 })],
    exported := [[read_data regionA 0]],
    allRows := [], selRows := [] }

/-- Row counts (found_all.csv, found_selection.csv) of a completed run. -/
def rowCounts : RunResult → Option (Nat × Nat)
  | RunResult.done tr => some (tr.allRows.length, tr.selRows.length)
  | _ => none

/-! ### Run invariants -/

/-- Frames that ever enter the pipeline: they were parsed by `read_data`
at a signature-confirmed offset and their date decoded successfully. -/
def goodFrame (region : List Nat) (f : Frame) : Prop :=
  f = read_data region f.header_offset ∧
  matchesAt region f.header_offset = true ∧
  (date_to_timestamp f.date).isSome = true

/-- Invariant on the loop state: every buffered frame is good, and when the
buffer is non-empty the `timestamp` variable holds the decoded date of the
last buffered frame (the most recent successful decode). -/
def StateInv (region : List Nat) (s : ScanState) : Prop :=
  (∀ f ∈ s.frames, goodFrame region f) ∧
  (∀ f, s.frames.getLast? = some f → s.timestamp = date_to_timestamp f.date)

/-- Invariant on the trace: flushed segments are non-empty and consist of
good frames, every exported segment was flushed, and CSV rows carry good
frames. -/
def TraceInvA (region : List Nat) (tr : Trace) : Prop :=
  (∀ p ∈ tr.flushes, p.1 ≠ [] ∧ ∀ f ∈ p.1, goodFrame region f) ∧
  (∀ seg ∈ tr.exported, ∃ t, (seg, t) ∈ tr.flushes) ∧
  (∀ r ∈ tr.allRows, goodFrame region r.rframe) ∧
  (∀ r ∈ tr.selRows, goodFrame region r.rframe)

/-! ### Byte-adjacency of segments -/

/-- The spec's pairwise byte-adjacency of a segment: each consecutive pair
`a` then `b` satisfies `b.absolute_offset = a.absolute_offset +
a.frame_length` (stated on the region-relative `header_offset`; both sides
of the spec equation carry the same `startoffset` summand, so the two
statements agree). -/
def chainAdjacent : List Frame → Bool
  | [] => true
  | [_] => true
  | a :: b :: rest =>
    decide (b.header_offset = a.header_offset + a.frame_length) && chainAdjacent (b :: rest)

/-- Every signature occurrence in the region parses to a frame whose packed
date decodes: the premise under which no frame is ever skipped. -/
def allDatesValid (region : List Nat) : Prop :=
  ∀ h, matchesAt region h = true → (date_to_timestamp (read_data region h).date).isSome = true

/-- Adjacency invariant on the loop state: the buffer is a contiguous chain
and its last frame ends exactly at the cursor. -/
def AdjState (s : ScanState) : Prop :=
  chainAdjacent s.frames = true ∧
  (∀ f, s.frames.getLast? = some f → f.header_offset + f.frame_length = s.offset)

/-- Adjacency invariant on the trace: every flushed and every exported
segment is a contiguous chain. -/
def AdjTrace (tr : Trace) : Prop :=
  (∀ p ∈ tr.flushes, chainAdjacent p.1 = true) ∧
  (∀ seg ∈ tr.exported, chainAdjacent seg = true)

/-! ### Helper lemmas: lists -/

theorem getLast?_app {α : Type} (l : List α) (a : α) : (l ++ [a]).getLast? = some a := by
  induction l with
  | nil => rfl
  | cons x xs ih =>
    cases xs with
    | nil => rfl
    | cons y ys => exact ih

theorem getLast?_some_of_ne_nil {α : Type} : ∀ {l : List α}, l ≠ [] → ∃ a, l.getLast? = some a := by
  intro l
  induction l with
  | nil => intro hne; exact absurd rfl hne
  | cons x xs ih =>
    intro _
    cases xs with
    | nil => exact ⟨x, rfl⟩
    | cons y ys =>
      obtain ⟨a, ha⟩ := ih (by simp)
      exact ⟨a, ha⟩

theorem mem_of_getLast?_eq {α : Type} {l : List α} {a : α}
    (h : l.getLast? = some a) : a ∈ l := by
  induction l with
  | nil => simp [List.getLast?] at h
  | cons x xs ih =>
    cases xs with
    | nil =>
      simp [List.getLast?] at h
      simp [h]
    | cons y ys =>
      have : (y :: ys).getLast? = some a := h
      exact List.mem_cons_of_mem x (ih this)

/-! ### Helper lemmas: the signature scanner -/

theorem findAux_ge {region : List Nat} :
    ∀ {fuel i j : Nat}, findAux region fuel i = some j → i ≤ j := by
  intro fuel
  induction fuel with
  | zero => intro i j hfind; simp [findAux] at hfind
  | succ fuel ih =>
    intro i j hfind
    by_cases hm : matchesAt region i = true
    · simp [findAux, hm] at hfind
      omega
    · simp [findAux, hm] at hfind
      have := ih hfind
      omega

theorem findAux_matches {region : List Nat} :
    ∀ {fuel i j : Nat}, findAux region fuel i = some j → matchesAt region j = true := by
  intro fuel
  induction fuel with
  | zero => intro i j hfind; simp [findAux] at hfind
  | succ fuel ih =>
    intro i j hfind
    by_cases hm : matchesAt region i = true
    · simp [findAux, hm] at hfind
      rw [← hfind]; exact hm
    · simp [findAux, hm] at hfind
      exact ih hfind

theorem mmFind_ge {region : List Nat} {off h : Nat} (hfind : mmFind region off = some h) :
    off ≤ h :=
  findAux_ge hfind

theorem mmFind_matches {region : List Nat} {off h : Nat}
    (hfind : mmFind region off = some h) : matchesAt region h = true :=
  findAux_matches hfind

theorem matchesAt_le_length {region : List Nat} {i : Nat}
    (hm : matchesAt region i = true) : i + 4 ≤ region.length := by
  have heq : (region.drop i).take 4 = sigBytes := by
    simpa [matchesAt] using hm
  have hlen : ((region.drop i).take 4).length = 4 := by rw [heq]; rfl
  rw [List.length_take, List.length_drop] at hlen
  omega

theorem mmFind_self {region : List Nat} {i : Nat} (hm : matchesAt region i = true) :
    mmFind region i = some i := by
  have h4 : i + 4 ≤ region.length := matchesAt_le_length hm
  have hfuel : region.length + 1 - i = (region.length - i) + 1 := by omega
  rw [mmFind, hfuel]
  simp [findAux, hm]

/-! ### Helper lemmas: trace bookkeeping -/

theorem flushSegment_flushes (cfg : Config) (seg : List Frame) (t : DateTime) (tr : Trace) :
    (flushSegment cfg seg t tr).flushes = tr.flushes ++ [(seg, t)] := by
  unfold flushSegment
  split <;> [skip; rfl]
  split <;> rfl

theorem flushSegment_exported (cfg : Config) (seg : List Frame) (t : DateTime) (tr : Trace) :
    (flushSegment cfg seg t tr).exported = tr.exported ∨
      (flushSegment cfg seg t tr).exported = tr.exported ++ [seg] := by
  unfold flushSegment
  split
  · split
    · exact Or.inl rfl
    · exact Or.inr rfl
  · exact Or.inl rfl

theorem flushSegment_allRows (cfg : Config) (seg : List Frame) (t : DateTime) (tr : Trace) :
    (flushSegment cfg seg t tr).allRows = tr.allRows := by
  unfold flushSegment
  split <;> [skip; rfl]
  split <;> rfl

theorem flushSegment_selRows (cfg : Config) (seg : List Frame) (t : DateTime) (tr : Trace) :
    (flushSegment cfg seg t tr).selRows = tr.selRows := by
  unfold flushSegment
  split <;> [skip; rfl]
  split <;> rfl

theorem gapStep_empty (cfg : Config) {s : ScanState} (tr : Trace) (h : Nat)
    (hf : s.frames = []) : gapStep cfg s tr h = some (s, tr) := by
  unfold gapStep
  rw [hf]

theorem gapStep_nogap (cfg : Config) {s : ScanState} (tr : Trace) {h : Nat}
    (hle : ¬ s.offset < h) : gapStep cfg s tr h = some (s, tr) := by
  unfold gapStep
  cases hf : s.frames with
  | nil => rfl
  | cons f0 rest => simp [hle]

theorem gapStep_gap (cfg : Config) {s : ScanState} (tr : Trace) {h : Nat}
    {f0 : Frame} {rest : List Frame} {t : DateTime}
    (hf : s.frames = f0 :: rest) (hlt : s.offset < h)
    (ht : date_to_timestamp f0.date = some t) :
    gapStep cfg s tr h =
      some ({ s with frames := [], timestamp := some t },
            flushSegment cfg (f0 :: rest) t tr) := by
  unfold gapStep
  rw [hf]
  simp [hlt, ht]

theorem frameStep_fail (cfg : Config) (h : Nat) (s : ScanState) (tr : Trace) {dhav : Frame}
    (hd : date_to_timestamp dhav.date = none) :
    frameStep cfg h s tr dhav = (s, tr) := by
  unfold frameStep
  rw [hd]

theorem frameStep_state (cfg : Config) (h : Nat) (s : ScanState) (tr : Trace) {dhav : Frame}
    {t : DateTime} (hd : date_to_timestamp dhav.date = some t) :
    (frameStep cfg h s tr dhav).1 =
      { s with frames := s.frames ++ [dhav], timestamp := some t } := by
  unfold frameStep
  rw [hd]

theorem frameStep_flushes (cfg : Config) (h : Nat) (s : ScanState) (tr : Trace) (dhav : Frame) :
    (frameStep cfg h s tr dhav).2.flushes = tr.flushes := by
  unfold frameStep
  cases hd : date_to_timestamp dhav.date with
  | none => rfl
  | some t =>
    simp only []
    split <;> [skip; rfl]
    split <;> [split <;> rfl; rfl]

theorem frameStep_exported (cfg : Config) (h : Nat) (s : ScanState) (tr : Trace) (dhav : Frame) :
    (frameStep cfg h s tr dhav).2.exported = tr.exported := by
  unfold frameStep
  cases hd : date_to_timestamp dhav.date with
  | none => rfl
  | some t =>
    simp only []
    split <;> [skip; rfl]
    split <;> [split <;> rfl; rfl]

theorem frameStep_allRows_csv (cfg : Config) (h : Nat) (s : ScanState) (tr : Trace)
    {dhav : Frame} {t : DateTime} (hd : date_to_timestamp dhav.date = some t)
    (hcsv : cfg.csv = true) :
    (frameStep cfg h s tr dhav).2.allRows =
      tr.allRows ++ [{ rts := t, roffset := h + cfg.startoffset, rframe := dhav }] := by
  unfold frameStep
  rw [hd]
  simp only [hcsv, if_true]
  split
  · split <;> rfl
  · rfl

theorem frameStep_allRows_nocsv (cfg : Config) (h : Nat) (s : ScanState) (tr : Trace)
    {dhav : Frame} {t : DateTime} (hd : date_to_timestamp dhav.date = some t)
    (hcsv : cfg.csv = false) :
    (frameStep cfg h s tr dhav).2.allRows = tr.allRows := by
  unfold frameStep
  rw [hd]
  simp only [hcsv]
  rfl

theorem frameStep_allRows (cfg : Config) (h : Nat) (s : ScanState) (tr : Trace) {dhav : Frame}
    {r : Row} (hr : r ∈ (frameStep cfg h s tr dhav).2.allRows) :
    r ∈ tr.allRows ∨ (r.rframe = dhav ∧ date_to_timestamp dhav.date = some r.rts) := by
  cases hd : date_to_timestamp dhav.date with
  | none => rw [frameStep_fail cfg h s tr hd] at hr; exact Or.inl hr
  | some t =>
    cases hcsv : cfg.csv with
    | false => rw [frameStep_allRows_nocsv cfg h s tr hd hcsv] at hr; exact Or.inl hr
    | true =>
      rw [frameStep_allRows_csv cfg h s tr hd hcsv] at hr
      rcases List.mem_append.mp hr with hr | hr
      · exact Or.inl hr
      · have hreq : r = { rts := t, roffset := h + cfg.startoffset, rframe := dhav } := by
          simpa using hr
        subst hreq
        exact Or.inr ⟨rfl, rfl⟩

theorem frameStep_selRows_sub (cfg : Config) (h : Nat) (s : ScanState) (tr : Trace)
    {dhav : Frame} {t : DateTime} (hd : date_to_timestamp dhav.date = some t) :
    (frameStep cfg h s tr dhav).2.selRows = tr.selRows ∨
      (frameStep cfg h s tr dhav).2.selRows =
        tr.selRows ++ [{ rts := t, roffset := h + cfg.startoffset, rframe := dhav }] := by
  unfold frameStep
  rw [hd]
  simp only []
  split
  · split
    · split
      · exact Or.inr rfl
      · exact Or.inl rfl
    · exact Or.inl rfl
  · exact Or.inl rfl

theorem frameStep_selRows (cfg : Config) (h : Nat) (s : ScanState) (tr : Trace) {dhav : Frame}
    {r : Row} (hr : r ∈ (frameStep cfg h s tr dhav).2.selRows) :
    r ∈ tr.selRows ∨ (r.rframe = dhav ∧ date_to_timestamp dhav.date = some r.rts) := by
  cases hd : date_to_timestamp dhav.date with
  | none => rw [frameStep_fail cfg h s tr hd] at hr; exact Or.inl hr
  | some t =>
    rcases frameStep_selRows_sub cfg h s tr hd with heq | heq
    · rw [heq] at hr; exact Or.inl hr
    · rw [heq] at hr
      rcases List.mem_append.mp hr with hr | hr
      · exact Or.inl hr
      · have hreq : r = { rts := t, roffset := h + cfg.startoffset, rframe := dhav } := by
          simpa using hr
        subst hreq
        exact Or.inr ⟨rfl, rfl⟩

theorem scanIter_offset (cfg : Config) (region : List Nat) {s s1 : ScanState}
    {tr tr1 : Trace} {h : Nat}
    (hit : scanIter cfg region s tr h = some (s1, tr1)) :
    s1.offset = h + (read_data region h).frame_length := by
  unfold scanIter at hit
  cases hg : gapStep cfg s tr h with
  | none => rw [hg] at hit; simp at hit
  | some p =>
    rw [hg] at hit
    simp at hit
    rw [← hit.1]

theorem read_data_header_offset (region : List Nat) (h : Nat) :
    (read_data region h).header_offset = h := rfl

theorem stateInv_init (region : List Nat) : StateInv region initState := by
  constructor
  · intro f hf; simp [initState] at hf
  · intro f hf; simp [initState, List.getLast?] at hf

theorem traceInv_init (region : List Nat) : TraceInvA region emptyTrace := by
  refine ⟨?_, ?_, ?_, ?_⟩ <;> intro x hx <;> simp [emptyTrace] at hx

theorem gapStep_stateInv (cfg : Config) {region : List Nat} {s : ScanState} (tr : Trace)
    {h : Nat} {p : ScanState × Trace} (hs : StateInv region s)
    (hg : gapStep cfg s tr h = some p) : StateInv region p.1 := by
  unfold gapStep at hg
  cases hf : s.frames with
  | nil =>
    rw [hf] at hg
    simp at hg
    rw [← hg]
    exact hs
  | cons f0 rest =>
    rw [hf] at hg
    by_cases hlt : s.offset < h
    · simp only [hlt, if_true] at hg
      cases hdec : date_to_timestamp f0.date with
      | none => rw [hdec] at hg; simp at hg
      | some t =>
        rw [hdec] at hg
        simp at hg
        rw [← hg]
        constructor
        · intro f hmem; simp at hmem
        · intro f hlast; simp [List.getLast?] at hlast
    · simp only [hlt, if_false] at hg
      simp at hg
      rw [← hg]
      exact hs

theorem gapStep_frames_sub (cfg : Config) {s : ScanState} (tr : Trace)
    {h : Nat} {p : ScanState × Trace}
    (hg : gapStep cfg s tr h = some p) : p.1.frames = s.frames ∨ p.1.frames = [] := by
  unfold gapStep at hg
  cases hf : s.frames with
  | nil =>
    rw [hf] at hg
    simp at hg
    rw [← hg, hf]
    exact Or.inl rfl
  | cons f0 rest =>
    rw [hf] at hg
    by_cases hlt : s.offset < h
    · simp only [hlt, if_true] at hg
      cases hdec : date_to_timestamp f0.date with
      | none => rw [hdec] at hg; simp at hg
      | some t =>
        rw [hdec] at hg
        simp at hg
        rw [← hg]
        exact Or.inr rfl
    · simp only [hlt, if_false] at hg
      simp at hg
      rw [← hg]
      exact Or.inl hf

theorem gapStep_traceInv (cfg : Config) {region : List Nat} {s : ScanState} {tr : Trace}
    {h : Nat} {p : ScanState × Trace} (hs : StateInv region s) (htr : TraceInvA region tr)
    (hg : gapStep cfg s tr h = some p) : TraceInvA region p.2 := by
  unfold gapStep at hg
  cases hf : s.frames with
  | nil =>
    rw [hf] at hg
    simp at hg
    rw [← hg]
    exact htr
  | cons f0 rest =>
    rw [hf] at hg
    by_cases hlt : s.offset < h
    · simp only [hlt, if_true] at hg
      cases hdec : date_to_timestamp f0.date with
      | none => rw [hdec] at hg; simp at hg
      | some t =>
        rw [hdec] at hg
        simp at hg
        rw [← hg]
        obtain ⟨hfl, hex, hall, hsel⟩ := htr
        refine ⟨?_, ?_, ?_, ?_⟩
        · intro q hq
          rw [flushSegment_flushes] at hq
          rcases List.mem_append.mp hq with hq | hq
          · exact hfl q hq
          · have hq : q = (f0 :: rest, t) := by simpa using hq
            subst hq
            refine ⟨by simp, ?_⟩
            intro f hfmem
            exact hs.1 f (hf ▸ hfmem)
        · intro seg hseg
          rcases flushSegment_exported cfg (f0 :: rest) t tr with he | he
          · rw [he] at hseg
            obtain ⟨t0, ht0⟩ := hex seg hseg
            exact ⟨t0, by rw [flushSegment_flushes]; exact List.mem_append_left _ ht0⟩
          · rw [he] at hseg
            rcases List.mem_append.mp hseg with hseg | hseg
            · obtain ⟨t0, ht0⟩ := hex seg hseg
              exact ⟨t0, by rw [flushSegment_flushes]; exact List.mem_append_left _ ht0⟩
            · have hseg : seg = f0 :: rest := by simpa using hseg
              subst hseg
              exact ⟨t, by rw [flushSegment_flushes]; simp⟩
        · intro r hr
          rw [flushSegment_allRows] at hr
          exact hall r hr
        · intro r hr
          rw [flushSegment_selRows] at hr
          exact hsel r hr
    · simp only [hlt, if_false] at hg
      simp at hg
      rw [← hg]
      exact htr

theorem scanIter_stateInv (cfg : Config) {region : List Nat} {s s1 : ScanState}
    {tr tr1 : Trace} {h : Nat} (hs : StateInv region s)
    (hfind : mmFind region s.offset = some h)
    (hit : scanIter cfg region s tr h = some (s1, tr1)) : StateInv region s1 := by
  unfold scanIter at hit
  cases hg : gapStep cfg s tr h with
  | none => rw [hg] at hit; simp at hit
  | some p =>
    rw [hg] at hit
    simp at hit
    have hps : StateInv region p.1 := gapStep_stateInv cfg tr hs hg
    cases hd : date_to_timestamp (read_data region h).date with
    | none =>
      have h1 : s1.frames = p.1.frames := by
        rw [← hit.1, frameStep_fail cfg h p.1 p.2 hd]
      have h2 : s1.timestamp = p.1.timestamp := by
        rw [← hit.1, frameStep_fail cfg h p.1 p.2 hd]
      constructor
      · intro f hmem
        rw [h1] at hmem
        exact hps.1 f hmem
      · intro f hlast
        rw [h1] at hlast
        rw [h2]
        exact hps.2 f hlast
    | some t =>
      have h1 : s1.frames = p.1.frames ++ [read_data region h] := by
        rw [← hit.1, frameStep_state cfg h p.1 p.2 hd]
      have h2 : s1.timestamp = some t := by
        rw [← hit.1, frameStep_state cfg h p.1 p.2 hd]
      constructor
      · intro f hmem
        rw [h1] at hmem
        rcases List.mem_append.mp hmem with hmem | hmem
        · exact hps.1 f hmem
        · have hf : f = read_data region h := by simpa using hmem
          subst hf
          exact ⟨rfl, by rw [read_data_header_offset]; exact mmFind_matches hfind,
                 by rw [hd]; rfl⟩
      · intro f hlast
        rw [h1, getLast?_app] at hlast
        have hf : f = read_data region h := by simpa using hlast.symm
        subst hf
        rw [h2, hd]

theorem scanIter_traceInv (cfg : Config) {region : List Nat} {s s1 : ScanState}
    {tr tr1 : Trace} {h : Nat} (hs : StateInv region s) (htr : TraceInvA region tr)
    (hfind : mmFind region s.offset = some h)
    (hit : scanIter cfg region s tr h = some (s1, tr1)) : TraceInvA region tr1 := by
  unfold scanIter at hit
  cases hg : gapStep cfg s tr h with
  | none => rw [hg] at hit; simp at hit
  | some p =>
    rw [hg] at hit
    simp at hit
    have hptr : TraceInvA region p.2 := gapStep_traceInv cfg hs htr hg
    rw [← hit.2]
    obtain ⟨hfl, hex, hall, hsel⟩ := hptr
    have hgood : ∀ (r : Row), r.rframe = read_data region h →
        date_to_timestamp (read_data region h).date = some r.rts →
        goodFrame region r.rframe := by
      intro r hrf hrd
      rw [hrf]
      exact ⟨rfl, by rw [read_data_header_offset]; exact mmFind_matches hfind,
             by rw [hrd]; rfl⟩
    refine ⟨?_, ?_, ?_, ?_⟩
    · intro q hq
      rw [frameStep_flushes] at hq
      exact hfl q hq
    · intro seg hseg
      rw [frameStep_exported] at hseg
      obtain ⟨t0, ht0⟩ := hex seg hseg
      exact ⟨t0, by rw [frameStep_flushes]; exact ht0⟩
    · intro r hr
      rcases frameStep_allRows cfg h p.1 p.2 hr with hr | hr
      · exact hall r hr
      · exact hgood r hr.1 hr.2
    · intro r hr
      rcases frameStep_selRows cfg h p.1 p.2 hr with hr | hr
      · exact hsel r hr
      · exact hgood r hr.1 hr.2

theorem finalFlush_traceInv (cfg : Config) {region : List Nat} {s : ScanState} {tr tr1 : Trace}
    (hs : StateInv region s) (htr : TraceInvA region tr)
    (hfin : finalFlush cfg s tr = RunResult.done tr1) : TraceInvA region tr1 := by
  unfold finalFlush at hfin
  cases hf : s.frames with
  | nil =>
    rw [hf] at hfin
    simp at hfin
    rw [← hfin]
    exact htr
  | cons f0 rest =>
    rw [hf] at hfin
    cases hts : s.timestamp with
    | none => rw [hts] at hfin; simp at hfin
    | some t =>
      rw [hts] at hfin
      simp at hfin
      rw [← hfin]
      obtain ⟨hfl, hex, hall, hsel⟩ := htr
      refine ⟨?_, ?_, ?_, ?_⟩
      · intro q hq
        rw [flushSegment_flushes] at hq
        rcases List.mem_append.mp hq with hq | hq
        · exact hfl q hq
        · have hq : q = (f0 :: rest, t) := by simpa using hq
          subst hq
          refine ⟨by simp, ?_⟩
          intro f hfmem
          exact hs.1 f (hf ▸ hfmem)
      · intro seg hseg
        rcases flushSegment_exported cfg (f0 :: rest) t tr with he | he
        · rw [he] at hseg
          obtain ⟨t0, ht0⟩ := hex seg hseg
          exact ⟨t0, by rw [flushSegment_flushes]; exact List.mem_append_left _ ht0⟩
        · rw [he] at hseg
          rcases List.mem_append.mp hseg with hseg | hseg
          · obtain ⟨t0, ht0⟩ := hex seg hseg
            exact ⟨t0, by rw [flushSegment_flushes]; exact List.mem_append_left _ ht0⟩
          · have hseg : seg = f0 :: rest := by simpa using hseg
            subst hseg
            exact ⟨t, by rw [flushSegment_flushes]; simp⟩
      · intro r hr
        rw [flushSegment_allRows] at hr
        exact hall r hr
      · intro r hr
        rw [flushSegment_selRows] at hr
        exact hsel r hr

theorem scanLoop_traceInv (cfg : Config) {region : List Nat} :
    ∀ (fuel : Nat) (s : ScanState) (tr : Trace) {tr1 : Trace},
      StateInv region s → TraceInvA region tr →
      scanLoop cfg region fuel s tr = RunResult.done tr1 → TraceInvA region tr1 := by
  intro fuel
  induction fuel with
  | zero => intro s tr tr1 _ _ hrun; simp [scanLoop] at hrun
  | succ fuel ih =>
    intro s tr tr1 hs htr hrun
    rw [scanLoop] at hrun
    cases hfind : mmFind region s.offset with
    | none =>
      rw [hfind] at hrun
      exact finalFlush_traceInv cfg hs htr hrun
    | some h =>
      rw [hfind] at hrun
      have hrun2 : (match scanIter cfg region s tr h with
          | none => RunResult.crash
          | some q => scanLoop cfg region fuel q.1 q.2) = RunResult.done tr1 := hrun
      cases hit : scanIter cfg region s tr h with
      | none => rw [hit] at hrun2; simp at hrun2
      | some p =>
        rw [hit] at hrun2
        exact ih p.1 p.2 (scanIter_stateInv cfg hs hfind hit)
          (scanIter_traceInv cfg hs htr hfind hit) hrun2

theorem runScan_traceInv (cfg : Config) {region : List Nat} (fuel : Nat) {tr1 : Trace}
    (hrun : runScan cfg region fuel = RunResult.done tr1) : TraceInvA region tr1 :=
  scanLoop_traceInv cfg fuel initState emptyTrace (stateInv_init region)
    (traceInv_init region) hrun

theorem chainAdjacent_append {b : Frame} :
    ∀ (l : List Frame), chainAdjacent l = true →
      (∀ g, l.getLast? = some g → g.header_offset + g.frame_length = b.header_offset) →
      chainAdjacent (l ++ [b]) = true := by
  intro l
  induction l with
  | nil => intro _ _; rfl
  | cons x xs ih =>
    intro hc hlast
    cases xs with
    | nil =>
      have hx := hlast x rfl
      simp [chainAdjacent, hx]
    | cons y ys =>
      have hc' : chainAdjacent (y :: ys) = true ∧
          y.header_offset = x.header_offset + x.frame_length := by
        simp [chainAdjacent] at hc
        exact ⟨hc.2, hc.1⟩
      have hlast' : ∀ g, (y :: ys).getLast? = some g →
          g.header_offset + g.frame_length = b.header_offset := by
        intro g hg
        exact hlast g hg
      have hrec := ih hc'.1 hlast'
      simp [chainAdjacent, hc'.2]
      simpa using hrec

theorem adjState_init : AdjState initState := by
  constructor
  · rfl
  · intro f hf; simp [initState, List.getLast?] at hf

theorem adjTrace_init : AdjTrace emptyTrace := by
  constructor <;> intro x hx <;> simp [emptyTrace] at hx

theorem gapStep_offset (cfg : Config) {s : ScanState} {tr : Trace} {h : Nat}
    {p : ScanState × Trace} (hg : gapStep cfg s tr h = some p) : p.1.offset = s.offset := by
  unfold gapStep at hg
  cases hf : s.frames with
  | nil => rw [hf] at hg; simp at hg; rw [← hg]
  | cons f0 rest =>
    rw [hf] at hg
    by_cases hlt : s.offset < h
    · simp only [hlt, if_true] at hg
      cases hdec : date_to_timestamp f0.date with
      | none => rw [hdec] at hg; simp at hg
      | some t => rw [hdec] at hg; simp at hg; rw [← hg]
    · simp only [hlt, if_false] at hg
      simp at hg
      rw [← hg]

theorem gapStep_nonempty (cfg : Config) {s : ScanState} {tr : Trace} {h : Nat}
    {p : ScanState × Trace} (hg : gapStep cfg s tr h = some p)
    (hne : p.1.frames ≠ []) : p.1 = s ∧ ¬ s.offset < h := by
  unfold gapStep at hg
  cases hf : s.frames with
  | nil =>
    rw [hf] at hg
    simp at hg
    rw [← hg] at hne
    exact absurd hf hne
  | cons f0 rest =>
    rw [hf] at hg
    by_cases hlt : s.offset < h
    · simp only [hlt, if_true] at hg
      cases hdec : date_to_timestamp f0.date with
      | none => rw [hdec] at hg; simp at hg
      | some t =>
        rw [hdec] at hg
        simp at hg
        rw [← hg] at hne
        simp at hne
    · simp only [hlt, if_false] at hg
      simp at hg
      rw [← hg]
      exact ⟨rfl, hlt⟩

theorem gapStep_adjTrace (cfg : Config) {s : ScanState} {tr : Trace} {h : Nat}
    {p : ScanState × Trace} (ha : AdjState s) (hat : AdjTrace tr)
    (hg : gapStep cfg s tr h = some p) : AdjTrace p.2 := by
  unfold gapStep at hg
  cases hf : s.frames with
  | nil => rw [hf] at hg; simp at hg; rw [← hg]; exact hat
  | cons f0 rest =>
    rw [hf] at hg
    by_cases hlt : s.offset < h
    · simp only [hlt, if_true] at hg
      cases hdec : date_to_timestamp f0.date with
      | none => rw [hdec] at hg; simp at hg
      | some t =>
        rw [hdec] at hg
        simp at hg
        rw [← hg]
        have hchain : chainAdjacent (f0 :: rest) = true := hf ▸ ha.1
        constructor
        · intro q hq
          rw [flushSegment_flushes] at hq
          rcases List.mem_append.mp hq with hq | hq
          · exact hat.1 q hq
          · have hq : q = (f0 :: rest, t) := by simpa using hq
            subst hq
            exact hchain
        · intro seg hseg
          rcases flushSegment_exported cfg (f0 :: rest) t tr with he | he
          · rw [he] at hseg
            exact hat.2 seg hseg
          · rw [he] at hseg
            rcases List.mem_append.mp hseg with hseg | hseg
            · exact hat.2 seg hseg
            · have hseg : seg = f0 :: rest := by simpa using hseg
              subst hseg
              exact hchain
    · simp only [hlt, if_false] at hg
      simp at hg
      rw [← hg]
      exact hat

theorem gapStep_adjState (cfg : Config) {s : ScanState} {tr : Trace} {h : Nat}
    {p : ScanState × Trace} (ha : AdjState s)
    (hg : gapStep cfg s tr h = some p) : AdjState p.1 := by
  rcases gapStep_frames_sub cfg tr hg with hfr | hfr
  · have hoff := gapStep_offset cfg hg
    constructor
    · rw [hfr]; exact ha.1
    · intro f hf
      rw [hfr] at hf
      rw [hoff]
      exact ha.2 f hf
  · constructor
    · rw [hfr]; rfl
    · intro f hf
      rw [hfr] at hf
      simp [List.getLast?] at hf

theorem scanIter_adj (cfg : Config) {region : List Nat} {s s1 : ScanState}
    {tr tr1 : Trace} {h : Nat} (hvalid : allDatesValid region)
    (ha : AdjState s) (hat : AdjTrace tr)
    (hfind : mmFind region s.offset = some h)
    (hit : scanIter cfg region s tr h = some (s1, tr1)) : AdjState s1 ∧ AdjTrace tr1 := by
  have hm : matchesAt region h = true := mmFind_matches hfind
  obtain ⟨t, ht⟩ : ∃ t, date_to_timestamp (read_data region h).date = some t := by
    have := hvalid h hm
    cases hdd : date_to_timestamp (read_data region h).date with
    | none => rw [hdd] at this; simp at this
    | some t0 => exact ⟨t0, rfl⟩
  unfold scanIter at hit
  cases hg : gapStep cfg s tr h with
  | none => rw [hg] at hit; simp at hit
  | some p =>
    rw [hg] at hit
    simp at hit
    have hpa : AdjState p.1 := gapStep_adjState cfg ha hg
    have hpt : AdjTrace p.2 := gapStep_adjTrace cfg ha hat hg
    have h1 : s1.frames = p.1.frames ++ [read_data region h] := by
      rw [← hit.1, frameStep_state cfg h p.1 p.2 ht]
    have hoff : s1.offset = h + (read_data region h).frame_length := by
      rw [← hit.1]
    constructor
    · constructor
      · rw [h1]
        apply chainAdjacent_append _ hpa.1
        intro g hg2
        have hne : p.1.frames ≠ [] := by
          intro hcon
          rw [hcon] at hg2
          simp [List.getLast?] at hg2
        obtain ⟨hps, hnlt⟩ := gapStep_nonempty cfg hg hne
        have hle : s.offset ≤ h := mmFind_ge hfind
        have hh : h = s.offset := by omega
        rw [hps] at hg2
        have hend := ha.2 g hg2
        rw [read_data_header_offset]
        omega
      · intro f hf
        rw [h1, getLast?_app] at hf
        have hfe : f = read_data region h := by simpa using hf.symm
        subst hfe
        rw [hoff, read_data_header_offset]
    · have htr1fl : tr1.flushes = p.2.flushes := by
        rw [← hit.2, frameStep_flushes]
      have htr1ex : tr1.exported = p.2.exported := by
        rw [← hit.2, frameStep_exported]
      constructor
      · intro q hq
        rw [htr1fl] at hq
        exact hpt.1 q hq
      · intro seg hseg
        rw [htr1ex] at hseg
        exact hpt.2 seg hseg

theorem finalFlush_adj (cfg : Config) {s : ScanState} {tr tr1 : Trace}
    (ha : AdjState s) (hat : AdjTrace tr)
    (hfin : finalFlush cfg s tr = RunResult.done tr1) : AdjTrace tr1 := by
  unfold finalFlush at hfin
  cases hf : s.frames with
  | nil =>
    rw [hf] at hfin
    simp at hfin
    rw [← hfin]
    exact hat
  | cons f0 rest =>
    rw [hf] at hfin
    cases hts : s.timestamp with
    | none => rw [hts] at hfin; simp at hfin
    | some t =>
      rw [hts] at hfin
      simp at hfin
      rw [← hfin]
      have hchain : chainAdjacent (f0 :: rest) = true := hf ▸ ha.1
      constructor
      · intro q hq
        rw [flushSegment_flushes] at hq
        rcases List.mem_append.mp hq with hq | hq
        · exact hat.1 q hq
        · have hq : q = (f0 :: rest, t) := by simpa using hq
          subst hq
          exact hchain
      · intro seg hseg
        rcases flushSegment_exported cfg (f0 :: rest) t tr with he | he
        · rw [he] at hseg
          exact hat.2 seg hseg
        · rw [he] at hseg
          rcases List.mem_append.mp hseg with hseg | hseg
          · exact hat.2 seg hseg
          · have hseg : seg = f0 :: rest := by simpa using hseg
            subst hseg
            exact hchain

theorem scanLoop_adj (cfg : Config) {region : List Nat} (hvalid : allDatesValid region) :
    ∀ (fuel : Nat) (s : ScanState) (tr : Trace) {tr1 : Trace},
      StateInv region s → AdjState s → AdjTrace tr →
      scanLoop cfg region fuel s tr = RunResult.done tr1 → AdjTrace tr1 := by
  intro fuel
  induction fuel with
  | zero => intro s tr tr1 _ _ _ hrun; simp [scanLoop] at hrun
  | succ fuel ih =>
    intro s tr tr1 hs ha hat hrun
    rw [scanLoop] at hrun
    cases hfind : mmFind region s.offset with
    | none =>
      rw [hfind] at hrun
      exact finalFlush_adj cfg ha hat hrun
    | some h =>
      rw [hfind] at hrun
      have hrun2 : (match scanIter cfg region s tr h with
          | none => RunResult.crash
          | some q => scanLoop cfg region fuel q.1 q.2) = RunResult.done tr1 := hrun
      cases hit : scanIter cfg region s tr h with
      | none => rw [hit] at hrun2; simp at hrun2
      | some p =>
        rw [hit] at hrun2
        have hadj := scanIter_adj cfg hvalid ha hat hfind hit
        exact ih p.1 p.2 (scanIter_stateInv cfg hs hfind hit) hadj.1 hadj.2 hrun2

theorem runScan_adj (cfg : Config) {region : List Nat} (hvalid : allDatesValid region)
    (fuel : Nat) {tr1 : Trace} (hrun : runScan cfg region fuel = RunResult.done tr1) :
    AdjTrace tr1 :=
  scanLoop_adj cfg hvalid fuel initState emptyTrace (stateInv_init region)
    adjState_init adjTrace_init hrun

/-! ### Lossless carving: raw data versus region spans -/

theorem readBytes_length_of_le {region : List Nat} {pos n : Nat}
    (h : pos + n ≤ region.length) : (readBytes region pos n).length = n := by
  simp [readBytes, List.length_take, List.length_drop]
  omega

/-- With the whole 22-byte header inside the region, the nine reads advance
the position to exactly `h + 22`, the seek-back lands on `h`, and the raw
data is the span starting at the header offset. -/
theorem read_data_data {region : List Nat} {h : Nat} (hle : h + 22 ≤ region.length) :
    (read_data region h).data = span region h (read_data region h).frame_length := by
  have l0 : (readBytes region h 4).length = 4 := readBytes_length_of_le (by omega)
  have l1 : (readBytes region (h + 4) 1).length = 1 := readBytes_length_of_le (by omega)
  have l2 : (readBytes region (h + 4 + 1) 1).length = 1 := readBytes_length_of_le (by omega)
  have l3 : (readBytes region (h + 4 + 1 + 1) 1).length = 1 :=
    readBytes_length_of_le (by omega)
  have l4 : (readBytes region (h + 4 + 1 + 1 + 1) 1).length = 1 :=
    readBytes_length_of_le (by omega)
  have l5 : (readBytes region (h + 4 + 1 + 1 + 1 + 1) 4).length = 4 :=
    readBytes_length_of_le (by omega)
  have l6 : (readBytes region (h + 4 + 1 + 1 + 1 + 1 + 4) 4).length = 4 :=
    readBytes_length_of_le (by omega)
  have l7 : (readBytes region (h + 4 + 1 + 1 + 1 + 1 + 4 + 4) 4).length = 4 :=
    readBytes_length_of_le (by omega)
  have l8 : (readBytes region (h + 4 + 1 + 1 + 1 + 1 + 4 + 4 + 4) 2).length = 2 :=
    readBytes_length_of_le (by omega)
  simp only [read_data]
  rw [l0, l1, l2, l3, l4, l5, l6, l7, l8]
  have harith : h + 4 + 1 + 1 + 1 + 1 + 4 + 4 + 4 + 2 - 22 = h := by omega
  rw [harith]
  rfl

/-- Bytes written by `write_dav` for a segment of fully-in-bounds parsed
frames equal the concatenation of the source spans. -/
theorem write_dav_spans {region : List Nat} :
    ∀ (seg : List Frame),
      (∀ f ∈ seg, goodFrame region f ∧ f.header_offset + 22 ≤ region.length) →
      write_dav seg = segSpans region seg := by
  intro seg
  induction seg with
  | nil => intro _; rfl
  | cons f fs ih =>
    intro hall
    have hf := hall f (by simp)
    have hdata : f.data = span region f.header_offset f.frame_length := by
      conv_lhs => rw [hf.1.1]
      rw [read_data_data hf.2]
      rw [← hf.1.1]
    show f.data ++ write_dav fs = span region f.header_offset f.frame_length ++ segSpans region fs
    rw [hdata, ih (fun g hg => hall g (List.mem_cons_of_mem f hg))]

/-! ### Termination of the scan loop -/

theorem finalFlush_ne_fuelOut (cfg : Config) (s : ScanState) (tr : Trace) :
    finalFlush cfg s tr ≠ RunResult.fuelOut := by
  unfold finalFlush
  cases hf : s.frames with
  | nil => simp
  | cons f0 rest => cases hts : s.timestamp <;> simp

/-- When every parsed frame declares a positive length the cursor strictly
increases, so `region.length + 2` iterations always finish the loop. -/
theorem scanLoop_terminates (cfg : Config) {region : List Nat}
    (hlen : ∀ h, matchesAt region h = true → 1 ≤ (read_data region h).frame_length) :
    ∀ (fuel : Nat) (s : ScanState) (tr : Trace),
      region.length + 1 - s.offset < fuel →
      scanLoop cfg region fuel s tr ≠ RunResult.fuelOut := by
  intro fuel
  induction fuel with
  | zero => intro s tr hm; omega
  | succ fuel ih =>
    intro s tr hm
    rw [scanLoop]
    cases hfind : mmFind region s.offset with
    | none => exact finalFlush_ne_fuelOut cfg s tr
    | some h =>
      show (match scanIter cfg region s tr h with
          | none => RunResult.crash
          | some q => scanLoop cfg region fuel q.1 q.2) ≠ RunResult.fuelOut
      cases hit : scanIter cfg region s tr h with
      | none => simp
      | some p =>
        show scanLoop cfg region fuel p.1 p.2 ≠ RunResult.fuelOut
        apply ih
        have hoff : p.1.offset = h + (read_data region h).frame_length := by
          rcases p with ⟨ps, ptr⟩
          exact scanIter_offset cfg region hit
        have hge : s.offset ≤ h := mmFind_ge hfind
        have hm4 : h + 4 ≤ region.length := matchesAt_le_length (mmFind_matches hfind)
        have hfl : 1 ≤ (read_data region h).frame_length := hlen h (mmFind_matches hfind)
        omega

/-- Once the cursor sits on a signature declaring `frame_length` 0, every
iteration finds the same offset again and never advances: no fuel bound is
ever enough. -/
theorem scanLoop_stuck (cfg : Config) {region : List Nat} {h : Nat}
    (hm : matchesAt region h = true)
    (hzero : (read_data region h).frame_length = 0) :
    ∀ (fuel : Nat) (s : ScanState) (tr : Trace), s.offset = h →
      scanLoop cfg region fuel s tr = RunResult.fuelOut := by
  intro fuel
  induction fuel with
  | zero => intro s tr _; rfl
  | succ fuel ih =>
    intro s tr hoff
    rw [scanLoop]
    have hfind : mmFind region s.offset = some h := by
      rw [hoff]; exact mmFind_self hm
    rw [hfind]
    show (match scanIter cfg region s tr h with
        | none => RunResult.crash
        | some q => scanLoop cfg region fuel q.1 q.2) = RunResult.fuelOut
    have hgap : gapStep cfg s tr h = some (s, tr) := gapStep_nogap cfg tr (by omega)
    have hit : scanIter cfg region s tr h =
        some ({ (frameStep cfg h s tr (read_data region h)).1 with
                offset := h + (read_data region h).frame_length },
              (frameStep cfg h s tr (read_data region h)).2) := by
      unfold scanIter
      rw [hgap]
    rw [hit]
    show scanLoop cfg region fuel
        { (frameStep cfg h s tr (read_data region h)).1 with
          offset := h + (read_data region h).frame_length }
        (frameStep cfg h s tr (read_data region h)).2 = RunResult.fuelOut
    apply ih
    show h + (read_data region h).frame_length = h
    rw [hzero]
    omega

/-! ### The packed-date round trip -/

theorem daysInMonth_le (y m : Nat) : daysInMonth y m ≤ 31 := by
  unfold daysInMonth
  split
  · split <;> omega
  · split <;> omega

/-- Core round-trip equation: encoding per the spec's bit layout and then
decoding with the source codec is the identity on representable dates. -/
theorem date_roundtrip {d : DateTime} (hv : validDateTime d = true)
    (hy1 : 2000 ≤ d.year) (hy2 : d.year ≤ 2063) :
    date_to_timestamp (packDate d) = some d := by
  have hv' := hv
  simp only [validDateTime, Bool.and_eq_true, decide_eq_true_eq] at hv'
  obtain ⟨⟨⟨⟨⟨⟨⟨⟨hv1, hv2⟩, hv3⟩, hv4⟩, hv5⟩, hv6⟩, hv7⟩, hv8⟩, hv9⟩ := hv'
  have hday : d.day ≤ 31 := le_trans hv6 (daysInMonth_le d.year d.month)
  have hsec : decodeSec (packDate d) = d.second := by
    unfold decodeSec packDate; omega
  have hmin : decodeMin (packDate d) = d.minute := by
    unfold decodeMin packDate; omega
  have hhour : decodeHour (packDate d) = d.hour := by
    unfold decodeHour packDate; omega
  have hdd : decodeDay (packDate d) = d.day := by
    unfold decodeDay packDate; omega
  have hmo : decodeMonth (packDate d) = d.month := by
    unfold decodeMonth packDate; omega
  have hyy : decodeYear (packDate d) = d.year := by
    unfold decodeYear packDate; omega
  unfold date_to_timestamp
  rw [hsec, hmin, hhour, hdd, hmo, hyy]
  show (if validDateTime d then some d else none) = some d
  rw [hv]
  rfl

/-! ### The gap-flush iteration -/

/-- On a gap with a non-empty buffer whose first frame decodes, one loop
iteration flushes exactly the buffered segment through the export decision
with the first frame's timestamp, and the segment buffer afterwards holds
the frame at the gap offset when its date decodes, or nothing at all when
it does not. -/
theorem scanIter_gap_flush (cfg : Config) (region : List Nat) {s : ScanState} (tr : Trace)
    {h : Nat} {f0 : Frame} {rest : List Frame} {t0 : DateTime}
    (hf : s.frames = f0 :: rest) (hlt : s.offset < h)
    (ht : date_to_timestamp f0.date = some t0) :
    ∃ s1 tr1, scanIter cfg region s tr h = some (s1, tr1) ∧
      tr1.flushes = tr.flushes ++ [(f0 :: rest, t0)] ∧
      (∀ t, date_to_timestamp (read_data region h).date = some t →
        s1.frames = [read_data region h]) ∧
      (date_to_timestamp (read_data region h).date = none → s1.frames = []) := by
  have hgap := gapStep_gap cfg tr hf hlt ht
  refine ⟨{ (frameStep cfg h { s with frames := [], timestamp := some t0 }
              (flushSegment cfg (f0 :: rest) t0 tr) (read_data region h)).1 with
            offset := h + (read_data region h).frame_length },
          (frameStep cfg h { s with frames := [], timestamp := some t0 }
              (flushSegment cfg (f0 :: rest) t0 tr) (read_data region h)).2,
          ?_, ?_, ?_, ?_⟩
  · unfold scanIter
    rw [hgap]
  · rw [frameStep_flushes, flushSegment_flushes]
  · intro t hdt
    show (frameStep cfg h { s with frames := [], timestamp := some t0 }
        (flushSegment cfg (f0 :: rest) t0 tr) (read_data region h)).1.frames = _
    rw [frameStep_state cfg h _ _ hdt]
    rfl
  · intro hdt
    show (frameStep cfg h { s with frames := [], timestamp := some t0 }
        (flushSegment cfg (f0 :: rest) t0 tr) (read_data region h)).1.frames = _
    rw [frameStep_fail cfg h _ _ hdt]

/-! ### Claims -/

/-- C2: for every date-time with year in 2000-2063 and calendar-valid
month, day, hour, minute and second, packing the fields into the 32-bit
word (seconds in bits 0-5, minutes in 6-11, hours in 12-16, day in 17-21,
month in 22-25, year minus 2000 in 26-31) and decoding that word with
`date_to_timestamp` yields exactly the original date-time. -/
theorem C2_packed_date_roundtrip (d : DateTime) (hv : validDateTime d = true)
    (hy1 : 2000 ≤ d.year) (hy2 : d.year ≤ 2063) :
    date_to_timestamp (packDate d) = some d :=
  date_roundtrip hv hy1 hy2

theorem C2_witness :
    validDateTime { year := 2024, month := 8, day := 2, hour := 15, minute := 42, second := 0 }
        = true ∧
    2000 ≤ 2024 ∧ 2024 ≤ 2063 ∧
    date_to_timestamp
        (packDate { year := 2024, month := 8, day := 2, hour := 15, minute := 42, second := 0 }) =
      some { year := 2024, month := 8, day := 2, hour := 15, minute := 42, second := 0 } :=
  ⟨by decide, by decide, by decide,
   C2_packed_date_roundtrip _ (by decide) (by decide) (by decide)⟩

/-- C3: a frame whose packed date fails to decode never breaks the
pipeline.  First part: after the gap handling of the iteration, the frame
at `h` changes nothing at all — the segment buffer, the `timestamp`
variable and the whole trace (CSV rows, flushes, exported files) are those
produced by the gap handling alone, and the cursor still advances to
`h + frame_length`.  Second part: in any completed run, every CSV row and
every frame of every exported segment has a decodable date, so an
invalid-date frame appears in neither CSV table and in no exported file. -/
theorem C3_invalid_date_skip :
    (∀ (cfg : Config) (region : List Nat) (s s1 : ScanState) (tr tr1 : Trace) (h : Nat),
      date_to_timestamp (read_data region h).date = none →
      gapStep cfg s tr h = some (s1, tr1) →
      scanIter cfg region s tr h =
        some ({ s1 with offset := h + (read_data region h).frame_length }, tr1))
    ∧ (∀ (cfg : Config) (region : List Nat) (fuel : Nat) (tr1 : Trace),
        runScan cfg region fuel = RunResult.done tr1 →
        (∀ r ∈ tr1.allRows, (date_to_timestamp r.rframe.date).isSome = true) ∧
        (∀ r ∈ tr1.selRows, (date_to_timestamp r.rframe.date).isSome = true) ∧
        (∀ seg ∈ tr1.exported, ∀ f ∈ seg, (date_to_timestamp f.date).isSome = true)) := by
  constructor
  · intro cfg region s s1 tr tr1 h hdec hg
    unfold scanIter
    rw [hg]
    show some ({ (frameStep cfg h s1 tr1 (read_data region h)).1 with
                 offset := h + (read_data region h).frame_length },
               (frameStep cfg h s1 tr1 (read_data region h)).2) = _
    rw [frameStep_fail cfg h s1 tr1 hdec]
  · intro cfg region fuel tr1 hrun
    obtain ⟨hfl, hex, hall, hsel⟩ := runScan_traceInv cfg fuel hrun
    refine ⟨?_, ?_, ?_⟩
    · intro r hr
      exact (hall r hr).2.2
    · intro r hr
      exact (hsel r hr).2.2
    · intro seg hseg f hfm
      obtain ⟨t, ht⟩ := hex seg hseg
      exact ((hfl (seg, t) ht).2 f hfm).2.2

theorem C3_witness :
    date_to_timestamp (read_data regionB 0).date = none ∧
    scanIter cfg0 regionB initState emptyTrace 0 =
      some ({ initState with offset := 0 + (read_data regionB 0).frame_length }, emptyTrace) ∧
    (read_data regionB 0).frame_length = 22 := by
  refine ⟨by decide, ?_, by decide⟩
  exact C3_invalid_date_skip.1 cfg0 regionB initState initState
    emptyTrace emptyTrace 0 (by decide) (gapStep_empty cfg0 emptyTrace 0 rfl)

/-- C8: the claim demands that a declared `frame_length` larger than the
remaining region be treated as fatal for that read.  The code instead
truncates silently: on a 30-byte region whose header at offset 0 declares
`frame_length` 100, `read_data` returns a normal frame whose raw data
holds only the 30 available bytes. -/
theorem C8_truncation_behavior :
    region8.length = 30 ∧
    (read_data region8 0).frame_length = 100 ∧
    (read_data region8 0).data.length = 30 ∧
    (read_data region8 0).data = region8 := by decide

/-- C10: with `--csv` on and no time bound, the selection file handle is
never created, yet the cleanup path still evaluates the name
`selectionoutputfile` and raises; the scan itself has completed, with
found_all.csv rows fully written (2 rows for region4) and no selection
rows. -/
theorem C10_unbound_selection_handle :
    selectionFileCreated true none none = false ∧
    cleanup true (selectionFileCreated true none none) = CleanupResult.nameError ∧
    rowCounts (runScan cfgCsv region4 3) = some (2, 0) := by decide

/-- C1 (amended): whenever the scanner yields `H` strictly above the
expected cursor while a non-empty segment is buffered, that segment is
flushed through the export decision before the frame at `H` is processed;
the frame at `H` starts a new segment WHEN ITS DATE DECODES, while an
invalid-date frame at `H` leaves the accumulator empty instead of starting
a segment.  The concrete scenario of the claim holds as stated: frames at
offsets 0, 100, 200 with `frame_length` 100 each followed by a frame at
500 produce exactly one flushed segment of the first three frames and a
fresh segment starting at 500. -/
theorem C1_gap_flush_amended :
    (∀ (cfg : Config) (region : List Nat) (s : ScanState) (tr : Trace) (h : Nat)
        (f0 : Frame) (rest : List Frame) (t0 : DateTime),
      s.frames = f0 :: rest → s.offset < h → date_to_timestamp f0.date = some t0 →
      ∃ s1 tr1, scanIter cfg region s tr h = some (s1, tr1) ∧
        tr1.flushes = tr.flushes ++ [(f0 :: rest, t0)] ∧
        (∀ t, date_to_timestamp (read_data region h).date = some t →
          s1.frames = [read_data region h]) ∧
        (date_to_timestamp (read_data region h).date = none → s1.frames = []))
    ∧ flushOffsets (runScan cfg0 region1 6) = some [[0, 100, 200], [500]] := by
  constructor
  · intro cfg region s tr h f0 rest t0 hf hlt ht
    exact scanIter_gap_flush cfg region tr hf hlt ht
  · decide

theorem C1_witness :
    (∃ s1 tr1, scanIter cfg0 region1c stateC1 emptyTrace 50 = some (s1, tr1) ∧
      tr1.flushes = emptyTrace.flushes ++
        [([read_data region1c 0],
          { year := 2024, month := 8, day := 2, hour := 15, minute := 42, second := 0 })] ∧
      (∀ t, date_to_timestamp (read_data region1c 50).date = some t →
        s1.frames = [read_data region1c 50]) ∧
      (date_to_timestamp (read_data region1c 50).date = none → s1.frames = [])) :=
  C1_gap_flush_amended.1 cfg0 region1c stateC1 emptyTrace 50 (read_data region1c 0) []
    { year := 2024, month := 8, day := 2, hour := 15, minute := 42, second := 0 }
    rfl (by decide) (by decide)

/-- C1 counterexample to the claim as stated: in region1c the scanner
yields H = 50 > cursor 22 with a one-frame segment buffered; the flush
does happen, but the frame at 50 carries the calendar-invalid packed date
0, so it does NOT start a new segment: the iteration leaves the segment
buffer empty, and the completed run flushes only the segment [0] — no
segment starting at 50 ever exists. -/
theorem C1_counterexample :
    mmFind region1c 22 = some 50 ∧
    date_to_timestamp (read_data region1c 50).date = none ∧
    (scanIter cfg0 region1c stateC1 emptyTrace 50).map (fun q => q.1.frames) = some [] ∧
    flushOffsets (runScan cfg0 region1c 4) = some [[0]] := by decide

/-- C4 (amended): a segment flushed on a mid-scan gap is accepted or
rejected using the decoded timestamp of its FIRST frame; the final flush
at scanner exhaustion instead consults the current value of the
`timestamp` variable, which (by the loop invariant, established for the
initial state and preserved by every iteration) is the decoded date of the
segment's LAST frame. -/
theorem C4_filter_timestamps_amended :
    (∀ (cfg : Config) (region : List Nat) (s : ScanState) (tr : Trace) (h : Nat)
        (f0 : Frame) (rest : List Frame) (t0 : DateTime),
      s.frames = f0 :: rest → s.offset < h → date_to_timestamp f0.date = some t0 →
      ∃ s1 tr1, scanIter cfg region s tr h = some (s1, tr1) ∧
        tr1.flushes = tr.flushes ++ [(f0 :: rest, t0)])
    ∧ (∀ (cfg : Config) (region : List Nat) (s : ScanState) (tr : Trace),
        StateInv region s → s.frames ≠ [] →
        ∃ f t, s.frames.getLast? = some f ∧ date_to_timestamp f.date = some t ∧
          finalFlush cfg s tr = RunResult.done (flushSegment cfg s.frames t tr))
    ∧ (∀ (cfg : Config) (region : List Nat) (s s1 : ScanState) (tr tr1 : Trace) (h : Nat),
        StateInv region s → mmFind region s.offset = some h →
        scanIter cfg region s tr h = some (s1, tr1) → StateInv region s1)
    ∧ (∀ region : List Nat, StateInv region initState) := by
  refine ⟨?_, ?_, ?_, stateInv_init⟩
  · intro cfg region s tr h f0 rest t0 hf hlt ht
    obtain ⟨s1, tr1, h1, h2, _, _⟩ := scanIter_gap_flush cfg region tr hf hlt ht
    exact ⟨s1, tr1, h1, h2⟩
  · intro cfg region s tr hs hne
    obtain ⟨f, hlast⟩ := getLast?_some_of_ne_nil hne
    have hts : s.timestamp = date_to_timestamp f.date := hs.2 f hlast
    have hfg := hs.1 f (mem_of_getLast?_eq hlast)
    obtain ⟨t, ht⟩ : ∃ t, date_to_timestamp f.date = some t := by
      cases hdd : date_to_timestamp f.date with
      | none =>
        exfalso
        have := hfg.2.2
        rw [hdd] at this
        simp at this
      | some t => exact ⟨t, rfl⟩
    refine ⟨f, t, hlast, ht, ?_⟩
    have hts2 : s.timestamp = some t := by rw [hts, ht]
    unfold finalFlush
    cases hfr : s.frames with
    | nil => exact absurd hfr hne
    | cons a l => rw [hts2]
  · intro cfg region s s1 tr tr1 h hs hfind hit
    exact scanIter_stateInv cfg hs hfind hit

theorem C4_witness :
    (∃ s1 tr1, scanIter cfg0 region1c stateC1 emptyTrace 50 = some (s1, tr1) ∧
      tr1.flushes = emptyTrace.flushes ++
        [([read_data region1c 0],
          { year := 2024, month := 8, day := 2, hour := 15, minute := 42, second := 0 })])
    ∧ (∃ f t, stateC4.frames.getLast? = some f ∧ date_to_timestamp f.date = some t ∧
        finalFlush cfg4 stateC4 emptyTrace =
          RunResult.done (flushSegment cfg4 stateC4.frames t emptyTrace)) := by
  constructor
  · exact C4_filter_timestamps_amended.1 cfg0 region1c stateC1 emptyTrace 50
      (read_data region1c 0) []
      { year := 2024, month := 8, day := 2, hour := 15, minute := 42, second := 0 }
      rfl (by decide) (by decide)
  · refine C4_filter_timestamps_amended.2.1 cfg4 region4 stateC4 emptyTrace ⟨?_, ?_⟩ (by decide)
    · intro f hf
      have hor : f = read_data region4 0 ∨ f = read_data region4 22 := by
        simpa [stateC4] using hf
      rcases hor with hor | hor <;> subst hor <;> exact ⟨by decide, by decide, by decide⟩
    · intro f hlast
      have hB : stateC4.frames.getLast? = some (read_data region4 22) := rfl
      rw [hB] at hlast
      have hfe : f = read_data region4 22 := (Option.some.inj hlast).symm
      subst hfe
      rfl

/-- C4 counterexample to the claim as stated: region4 is one contiguous
segment whose first frame is dated 10:00 and whose last is dated 12:00;
with a start bound of 11:00 the first frame's timestamp FAILS the filter,
yet the segment IS exported, because the flush at scanner exhaustion uses
the stale `timestamp` variable holding the last frame's decoded date. -/
theorem C4_counterexample :
    date_to_timestamp (read_data region4 0).date =
      some { year := 2024, month := 8, day := 2, hour := 10, minute := 0, second := 0 } ∧
    timestamp_ok { year := 2024, month := 8, day := 2, hour := 10, minute := 0, second := 0 }
      cfg4.starttime cfg4.stoptime = false ∧
    exportedOf (runScan cfg4 region4 3) =
      some [[read_data region4 0, read_data region4 22]] := by decide

/-- C9: the scan loop terminates on every finite region in which each
parsed frame declares `frame_length` at least 1 — `region.length + 2`
iterations always suffice, because the cursor then strictly increases —
and from any state whose cursor sits on a signature declaring
`frame_length` 0 the loop exhausts EVERY fuel bound: the same offset is
found again on each iteration and the cursor never advances. -/
theorem C9_termination (cfg : Config) (region : List Nat) :
    ((∀ h, matchesAt region h = true → 1 ≤ (read_data region h).frame_length) →
      scanLoop cfg region (region.length + 2) initState emptyTrace ≠ RunResult.fuelOut)
    ∧ (∀ (h : Nat) (s : ScanState) (tr : Trace),
        s.offset = h → matchesAt region h = true →
        (read_data region h).frame_length = 0 →
        ∀ fuel, scanLoop cfg region fuel s tr = RunResult.fuelOut) := by
  constructor
  · intro hlen
    apply scanLoop_terminates cfg hlen
    show region.length + 1 - initState.offset < region.length + 2
    have h0 : initState.offset = 0 := rfl
    omega
  · intro h s tr hoff hm hzero fuel
    exact scanLoop_stuck cfg hm hzero fuel s tr hoff

theorem C9_witness :
    scanLoop cfg0 regionA (regionA.length + 2) initState emptyTrace ≠ RunResult.fuelOut ∧
    (matchesAt regionZ 0 = true ∧ (read_data regionZ 0).frame_length = 0 ∧
      scanLoop cfg0 regionZ 7 initState emptyTrace = RunResult.fuelOut) := by
  constructor
  · refine (C9_termination cfg0 regionA).1 ?_
    intro h hm
    have hb : h + 4 ≤ regionA.length := matchesAt_le_length hm
    have hlen : regionA.length = 22 := by decide
    have hb2 : h ≤ 18 := by omega
    interval_cases h <;> revert hm <;> decide
  · exact ⟨by decide, by decide,
      (C9_termination cfg0 regionZ).2 0 initState emptyTrace rfl (by decide) (by decide) 7⟩

/-- C5 (amended): for every exported segment all of whose frames have
their full 22-byte header inside the region, the bytes written to the
output container equal the byte-for-byte concatenation, in segment order,
of the region spans [offset, offset + frame_length) of the segment's
frames.  (When a frame's header is cut off by the region end, the seek
back lands at a shifted position and the equation can fail — see the
counterexample.) -/
theorem C5_lossless_carving_amended (cfg : Config) (region : List Nat) (fuel : Nat)
    (tr1 : Trace) (seg : List Frame)
    (hrun : runScan cfg region fuel = RunResult.done tr1)
    (hseg : seg ∈ tr1.exported)
    (hin : ∀ f ∈ seg, f.header_offset + 22 ≤ region.length) :
    write_dav seg = segSpans region seg := by
  obtain ⟨hfl, hex, _, _⟩ := runScan_traceInv cfg fuel hrun
  obtain ⟨t, ht⟩ := hex seg hseg
  have hgood := (hfl (seg, t) ht).2
  apply write_dav_spans
  intro f hf
  exact ⟨hgood f hf, hin f hf⟩

theorem C5_witness :
    write_dav [read_data regionA 0] = segSpans regionA [read_data regionA 0] := by
  have hrun : runScan cfg0 regionA 2 = RunResult.done traceA := by decide
  exact C5_lossless_carving_amended cfg0 regionA 2 traceA [read_data regionA 0]
    hrun (by decide) (by decide)

/-- C5 counterexample to the claim as stated: region5's only signature
sits at offset 2, and the declared 22-byte header runs past the region
end, so the reads stop early and the seek-back lands at offset 0; the
single-frame segment is exported, but its bytes are region5[0:22), not
the span [2, 24) of the claim. -/
theorem C5_counterexample :
    exportedOf (runScan cfg0 region5 2) = some [[read_data region5 2]] ∧
    write_dav [read_data region5 2] ≠ segSpans region5 [read_data region5 2] := by decide

/-- C6: the claim requires the scan to cover the input from the rounded
start offset to the end of the file, with reported offsets exact.  The
code instead passes the rounded start offset as the LENGTH argument of
`mmap.mmap` (the file-offset parameter defaults to 0), so with skip 4096
on the 8192-byte fileC6 the scanned region is the FIRST 4096 bytes, the
signature at file position 0 is found and reported at 4096 — a position
that holds no signature — and the scanned region is not the claimed tail
of the file. -/
theorem C6_skip_mapping_bug :
    scannedRegion fileC6 4096 4096 = fileC6.take 4096 ∧
    mmFind (scannedRegion fileC6 4096 4096) 0 = some 0 ∧
    reportedOffset 4096 4096 0 = 4096 ∧
    matchesAt fileC6 0 = true ∧
    matchesAt fileC6 4096 = false ∧
    scannedRegion fileC6 4096 4096 ≠ fileC6.drop 4096 := by
  have htake : scannedRegion fileC6 4096 4096 = fileC6.take 4096 := by
    unfold scannedRegion
    norm_num
  have hdrop : fileC6.drop 4096 = List.replicate 4096 0 := by
    show (mkHeader 1 0 22 dGood 0 ++ List.replicate 8170 0).drop 4096 = _
    rw [List.drop_append_eq_append_drop]
    have hnil : List.drop 4096 (mkHeader 1 0 22 dGood 0) = [] :=
      List.drop_eq_nil_of_le (by decide)
    rw [hnil, List.nil_append]
    have hL : (mkHeader 1 0 22 dGood 0).length = 22 := by decide
    rw [hL]
    rw [List.drop_replicate]
  have hm0 : matchesAt (fileC6.take 4096) 0 = true := by
    unfold matchesAt
    rw [List.drop_zero, List.take_take]
    norm_num
    decide
  refine ⟨htake, ?_, by decide, by decide, ?_, ?_⟩
  · rw [htake]
    exact mmFind_self hm0
  · unfold matchesAt
    rw [hdrop, List.take_replicate]
    decide
  · intro heq
    rw [htake, hdrop] at heq
    have hhead : (fileC6.take 4096).head? = some 68 := by decide
    have hcg := congrArg List.head? heq
    rw [hhead] at hcg
    have hhead2 : (List.replicate 4096 (0 : Nat)).head? = some 0 := by decide
    rw [hhead2] at hcg
    simp at hcg

/-- C7 (amended): every segment handed to the exporter — both every
segment reaching the export decision and every segment actually written —
is non-empty; and PROVIDED every parsed frame's date decodes, such
segments are also pairwise byte-adjacent.  (A skipped invalid-date frame
advances the cursor without appending, after which a frame can join the
buffered segment non-adjacently — see the counterexample.) -/
theorem C7_segment_invariants_amended (cfg : Config) (region : List Nat) (fuel : Nat)
    (tr1 : Trace) (hrun : runScan cfg region fuel = RunResult.done tr1) :
    (∀ p ∈ tr1.flushes, p.1 ≠ []) ∧ (∀ seg ∈ tr1.exported, seg ≠ []) ∧
    (allDatesValid region →
      (∀ p ∈ tr1.flushes, chainAdjacent p.1 = true) ∧
      (∀ seg ∈ tr1.exported, chainAdjacent seg = true)) := by
  obtain ⟨hfl, hex, _, _⟩ := runScan_traceInv cfg fuel hrun
  refine ⟨?_, ?_, ?_⟩
  · intro p hp
    exact (hfl p hp).1
  · intro seg hseg
    obtain ⟨t, ht⟩ := hex seg hseg
    exact (hfl (seg, t) ht).1
  · intro hvalid
    exact runScan_adj cfg hvalid fuel hrun

theorem C7_witness :
    (∀ p ∈ traceA.flushes, p.1 ≠ []) ∧ (∀ seg ∈ traceA.exported, seg ≠ []) ∧
    ((∀ p ∈ traceA.flushes, chainAdjacent p.1 = true) ∧
     (∀ seg ∈ traceA.exported, chainAdjacent seg = true)) := by
  have hrun : runScan cfg0 regionA 2 = RunResult.done traceA := by decide
  obtain ⟨h1, h2, h3⟩ := C7_segment_invariants_amended cfg0 regionA 2 traceA hrun
  refine ⟨h1, h2, h3 ?_⟩
  intro h hm
  have hb : h + 4 ≤ regionA.length := matchesAt_le_length hm
  have hlen : regionA.length = 22 := by decide
  have hb2 : h ≤ 18 := by omega
  interval_cases h <;> revert hm <;> decide

/-- C7 counterexample to the claim as stated: in region7 the middle frame
at offset 22 has an invalid date and is skipped while the cursor still
advances past it, so the frame at 44 is judged adjacent and joins the
buffered segment; the flushed and exported segment [frame at 0, frame at
44] violates pairwise byte-adjacency (0 + 22 ≠ 44). -/
theorem C7_counterexample :
    flushOffsets (runScan cfg0 region7 5) = some [[0, 44]] ∧
    exportedOf (runScan cfg0 region7 5) = some [[read_data region7 0, read_data region7 44]] ∧
    chainAdjacent [read_data region7 0, read_data region7 44] = false ∧
    (read_data region7 0).frame_length = 22 := by decide

end DHAVinci
